import Mathlib

/-!
Verification development for the ferefek_ai_back document chunking and
retrieval pipeline.

The definitions below are shallow embeddings of the TypeScript source:

* `createMultiLevelChunks`, `rawParagraphs`, `mergeParagraphs` model
  `src/pdf/chucking.ts` (the three-level chunk builder and its paragraph
  merge pass);
* `ensureConsistency` and `fekFullMarkdown` model the final normalisation
  pass of `src/pdf/utils.ts` and the page-joining glue of
  `pdfToMarkdown_FEK` in `src/pdf/pdf.ts`;
* `generateAnswerFromResults` and `generateCleanUserPrompt` model the
  answer synthesizer and query refiner of `src/openai.ts`, with the
  provider's successive per-attempt outcomes supplied as an explicit list;
* `updateAnswerValidation` models the feedback `UPDATE` of
  `src/db/postgress.ts` over a list-of-rows table state;
* `similaritySearchQueryParams` models the query construction of
  `QdrantService.similaritySearch` in `src/db/qdrant.ts`.

JavaScript strings are modelled as Lean `String` (`List Char` underneath);
JS `trim`/`\s` are modelled over the ASCII whitespace characters, which is
exact for all inputs appearing in the claims.
-/

/-! ### Decimal rendering of natural numbers (JS `${n}` template interpolation) -/

/-- The character for a single decimal digit, as produced by JS number
formatting (code point 48 + digit). -/
def digitChar10 (d : Nat) : Char := Char.ofNat (48 + d)

/-- Fuel-driven most-significant-first decimal digit list of a natural
number; `fuel > n` always suffices. -/
def natDigitsFuel : Nat → Nat → List Char
  | 0, _ => []
  | fuel + 1, n =>
    if n < 10 then [digitChar10 n]
    else natDigitsFuel fuel (n / 10) ++ [digitChar10 (n % 10)]

/-- Decimal rendering of a natural number, as JS renders an integer-valued
number inside a template literal. -/
def natToString (n : Nat) : String := String.mk (natDigitsFuel (n + 1) n)

theorem natDigitsFuel_congr :
    ∀ n fuel fuel', n < fuel → n < fuel' →
      natDigitsFuel fuel n = natDigitsFuel fuel' n := by
  intro n
  induction n using Nat.strong_induction_on with
  | _ n ih =>
    intro fuel fuel' h h'
    cases fuel with
    | zero => omega
    | succ f =>
      cases fuel' with
      | zero => omega
      | succ f' =>
        simp only [natDigitsFuel]
        by_cases h10 : n < 10
        · simp [h10]
        · simp only [if_neg h10]
          have hdiv : n / 10 < n := Nat.div_lt_self (by omega) (by omega)
          rw [ih (n / 10) hdiv f f' (by omega) (by omega)]

theorem natDigits_unfold (n : Nat) :
    natDigitsFuel (n + 1) n =
      if n < 10 then [digitChar10 n]
      else natDigitsFuel (n / 10 + 1) (n / 10) ++ [digitChar10 (n % 10)] := by
  have h0 : natDigitsFuel (n + 1) n
      = if n < 10 then [digitChar10 n]
        else natDigitsFuel n (n / 10) ++ [digitChar10 (n % 10)] := rfl
  rw [h0]
  by_cases h10 : n < 10
  · simp [h10]
  · rw [if_neg h10, if_neg h10,
      natDigitsFuel_congr (n / 10) n (n / 10 + 1)
        (by
          have h1 : n / 10 < n := Nat.div_lt_self (by omega) (by omega)
          omega)
        (by omega)]

theorem natDigits_length_pos (n : Nat) : 0 < (natDigitsFuel (n + 1) n).length := by
  rw [natDigits_unfold]
  by_cases h10 : n < 10 <;> simp [h10]

theorem digitChar10_inj_aux :
    ∀ a < 10, ∀ b < 10, digitChar10 a = digitChar10 b → a = b := by decide

theorem digitChar10_inj {a b : Nat} (ha : a < 10) (hb : b < 10)
    (h : digitChar10 a = digitChar10 b) : a = b :=
  digitChar10_inj_aux a ha b hb h

theorem natDigits_inj : ∀ m n : Nat,
    natDigitsFuel (m + 1) m = natDigitsFuel (n + 1) n → m = n := by
  intro m
  induction m using Nat.strong_induction_on with
  | _ m ih =>
    intro n h
    rw [natDigits_unfold m, natDigits_unfold n] at h
    by_cases hm : m < 10 <;> by_cases hn : n < 10
    · simp only [if_pos hm, if_pos hn, List.cons.injEq] at h
      exact digitChar10_inj hm hn h.1
    · exfalso
      simp only [if_pos hm, if_neg hn] at h
      have hlen := congrArg List.length h
      have hpos := natDigits_length_pos (n / 10)
      simp only [List.length_append, List.length_singleton, List.length_cons,
        List.length_nil] at hlen
      omega
    · exfalso
      simp only [if_neg hm, if_pos hn] at h
      have hlen := congrArg List.length h
      have hpos := natDigits_length_pos (m / 10)
      simp only [List.length_append, List.length_singleton, List.length_cons,
        List.length_nil] at hlen
      omega
    · simp only [if_neg hm, if_neg hn] at h
      have h2 := congrArg List.reverse h
      simp at h2
      have hlastm : m % 10 = n % 10 :=
        digitChar10_inj (Nat.mod_lt _ (by omega)) (Nat.mod_lt _ (by omega)) h2.1
      have hdivlt : m / 10 < m := Nat.div_lt_self (by omega) (by omega)
      have hdiv : m / 10 = n / 10 := by
        apply ih (m / 10) hdivlt
        have := congrArg List.reverse h2.2
        simpa using this
      omega

theorem natToString_inj {m n : Nat} (h : natToString m = natToString n) : m = n := by
  apply natDigits_inj
  have := congrArg String.data h
  simpa [natToString] using this

/-! ### Basic string helpers (models of the JS string operations used) -/

/-- Characters counted as whitespace by the JS `trim`/`\s` operations used
by the source (restricted to the ASCII range, which is exact for all
inputs below). -/
def jsWhitespace (c : Char) : Bool :=
  c = ' ' || c = '\t' || c = '\n' || c = '\r' || c = '\x0b' || c = '\x0c'

/-- Model of `String.prototype.trim`: drop whitespace from both ends. -/
def trimChars (cs : List Char) : List Char :=
  ((cs.dropWhile jsWhitespace).reverse.dropWhile jsWhitespace).reverse

/-- Model of `String.prototype.trim` on Lean strings. -/
def jsTrim (s : String) : String := String.mk (trimChars s.data)

/-- Model of `Array.prototype.join(sep)`. -/
def joinSep (sep : String) : List String → String
  | [] => ""
  | [a] => a
  | a :: b :: l => a ++ sep ++ joinSep sep (b :: l)

/-! ### Paragraph splitting and the merge pass of `createMultiLevelChunks` -/

theorem length_dropWhile_le (p : α → Bool) (l : List α) :
    (l.dropWhile p).length ≤ l.length := by
  induction l with
  | nil => simp
  | cons a l ih =>
    rw [List.dropWhile_cons]
    by_cases h : p a
    · simp only [if_pos h, List.length_cons]
      omega
    · simp [if_neg h]

/-- Fuel-driven worker for `splitOnBlankLines`; every recursive step
consumes at least one character, so fuel equal to the input length always
suffices (and the fuel-exhausted case is only reached on the empty list,
where it agrees with the empty-list case). -/
def splitOnBlankLinesFuel : Nat → List Char → List (List Char)
  | 0, _ => [[]]
  | _ + 1, [] => [[]]
  | fuel + 1, '\n' :: '\n' :: rest =>
    [] :: splitOnBlankLinesFuel fuel (rest.dropWhile (fun c => c = '\n'))
  | fuel + 1, c :: rest =>
    match splitOnBlankLinesFuel fuel rest with
    | [] => [[c]]
    | piece :: pieces => (c :: piece) :: pieces

/-- Model of `page.split(/\n\n+/)`: split on maximal runs of two or more
newline characters.  A run of two or more newlines separates two pieces;
a single newline does not split. -/
def splitOnBlankLines (cs : List Char) : List (List Char) :=
  splitOnBlankLinesFuel cs.length cs

/-- The raw paragraph list of one page, as computed by the builder:
`page.split(/\n\n+/).map(p => p.trim()).filter(p => p.length > 0)`. -/
def rawParagraphs (page : String) : List String :=
  ((splitOnBlankLines page.data).map (fun cs => jsTrim (String.mk cs))).filter
    (fun p => decide (0 < p.length))

/-- Helper of `isHeading`: after the leading run of markers, the next
character has to be whitespace. -/
def afterHashWhitespace : List Char → Bool
  | '#' :: rest => afterHashWhitespace rest
  | c :: _ => jsWhitespace c
  | [] => false

/-- Model of the heading test `/^#+\s/.test(para)`: one or more leading
markup markers followed by a whitespace character. -/
def isHeading (s : String) : Bool :=
  match s.data with
  | '#' :: rest => afterHashWhitespace rest
  | _ => false

/-- The fixed minimum paragraph length of the merge pass
(`MIN_PARAGRAPH_LENGTH` in `chucking.ts`). -/
def MIN_PARAGRAPH_LENGTH : Nat := 100

/-- The merge loop of `createMultiLevelChunks` over the raw paragraphs of a
page, with the mutable `buffer` variable made an explicit argument.
A heading is merged with the immediately following non-heading paragraph
(skipping it); a short paragraph is accumulated into the buffer, which is
flushed when the next paragraph is long, is a heading, or the input ends;
a long paragraph first flushes a pending buffer and then stands alone. -/
def mergeParagraphs : List String → String → List String
  | [], buffer => if buffer = "" then [] else [buffer]
  | p :: rest, buffer =>
    if isHeading p then
      match rest with
      | [] => [p]
      | q :: rest' =>
        if isHeading q then p :: mergeParagraphs (q :: rest') ""
        else (p ++ "\n\n" ++ q) :: mergeParagraphs rest' ""
    else if p.length < MIN_PARAGRAPH_LENGTH then
      let buffer' := if buffer = "" then p else buffer ++ "\n\n" ++ p
      match rest with
      | [] => [buffer']
      | q :: rest' =>
        if MIN_PARAGRAPH_LENGTH ≤ q.length ∨ isHeading q then
          buffer' :: mergeParagraphs (q :: rest') ""
        else mergeParagraphs (q :: rest') buffer'
    else
      if buffer = "" then p :: mergeParagraphs rest ""
      else buffer :: p :: mergeParagraphs rest ""

/-- The merged paragraph list of one page (`mergedParagraphs` in the
source), entered with an empty buffer. -/
def mergedParagraphs (page : String) : List String :=
  mergeParagraphs (rawParagraphs page) ""

/-! ### The chunk data model and `createMultiLevelChunks` -/

/-- The embedding model constant of `src/openai.ts`. -/
def EMBEDDING_MODEL : String := "text-embedding-3-large"

/-- One output `Document` of the chunk builder: its text plus the metadata
fields attached in `chucking.ts`. -/
structure ChunkDoc where
  pageContent : String
  fileName : String
  filePath : String
  fileFormat : String
  documentHash : String
  chunkLevel : String
  chunkId : String
  parentIds : List String
  pageRange : Option (Nat × Nat)
  pageNumber : Option Nat
  paragraphIndex : Option Nat
  embeddingModel : String
  deriving DecidableEq, Repr

/-- Indexed map, modelling `array.forEach((x, i) => out.push(f(i, x)))`
starting at index `n`. -/
def mapIdx (f : Nat → α → β) : Nat → List α → List β
  | _, [] => []
  | n, a :: l => f n a :: mapIdx f (n + 1) l

/-- Indexed flat map, modelling a `forEach` that pushes a whole block of
outputs per element. -/
def flatMapIdx (f : Nat → α → List β) : Nat → List α → List β
  | _, [] => []
  | n, a :: l => f n a ++ flatMapIdx f (n + 1) l

/-- The page-level chunk id `` `${documentHash}-${i + 1}` `` for 0-based
page index `i`. -/
def pageChunkIdOf (documentHash : String) (i : Nat) : String :=
  documentHash ++ "-" ++ natToString (i + 1)

/-- The paragraph-level chunk id `` `${pageChunkId}-${pri + 1}` `` for
0-based page index `i` and 0-based paragraph index `k`. -/
def paragraphChunkIdOf (documentHash : String) (i k : Nat) : String :=
  pageChunkIdOf documentHash i ++ "-" ++ natToString (k + 1)

/-- The page-level chunk pushed for 0-based index `i`. -/
def mkPageChunk (fileName filePath fileFormat documentHash : String)
    (i : Nat) (page : String) : ChunkDoc :=
  { pageContent := page
    fileName := fileName
    filePath := filePath
    fileFormat := fileFormat
    documentHash := documentHash
    chunkLevel := "page"
    chunkId := pageChunkIdOf documentHash i
    parentIds := [documentHash]
    pageRange := none
    pageNumber := some (i + 1)
    paragraphIndex := none
    embeddingModel := EMBEDDING_MODEL }

/-- The paragraph-level chunk pushed for page index `i`, paragraph index
`k` (both 0-based) with text `para`. -/
def mkParagraphChunk (fileName filePath fileFormat documentHash : String)
    (i k : Nat) (para : String) : ChunkDoc :=
  { pageContent := para
    fileName := fileName
    filePath := filePath
    fileFormat := fileFormat
    documentHash := documentHash
    chunkLevel := "paragraph"
    chunkId := paragraphChunkIdOf documentHash i k
    parentIds := [pageChunkIdOf documentHash i]
    pageRange := none
    pageNumber := some (i + 1)
    paragraphIndex := some (k + 1)
    embeddingModel := EMBEDDING_MODEL }

/-- The document-level chunk pushed first (`fullDocument` in the source). -/
def mkDocumentChunk (fullMarkdown : String) (pagesMarkdown : List String)
    (fileName filePath fileFormat documentHash : String) : ChunkDoc :=
  { pageContent := fullMarkdown
    fileName := fileName
    filePath := filePath
    fileFormat := fileFormat
    documentHash := documentHash
    chunkLevel := "document"
    chunkId := documentHash
    parentIds := []
    pageRange := some (1, pagesMarkdown.length)
    pageNumber := none
    paragraphIndex := none
    embeddingModel := EMBEDDING_MODEL }

/-- Model of `createMultiLevelChunks` in `src/pdf/chucking.ts`: one
document-level chunk, one page-level chunk per input page in order, and
(when `paragraphChucking` is set) the merged paragraph chunks of every
page, in emission order. -/
def createMultiLevelChunks (fullMarkdown : String) (pagesMarkdown : List String)
    (fileName filePath fileFormat documentHash : String)
    (paragraphChucking : Bool) : List ChunkDoc :=
  mkDocumentChunk fullMarkdown pagesMarkdown fileName filePath fileFormat documentHash
    :: mapIdx (mkPageChunk fileName filePath fileFormat documentHash) 0 pagesMarkdown
    ++ (if paragraphChucking then
          flatMapIdx
            (fun pgi page =>
              mapIdx (mkParagraphChunk fileName filePath fileFormat documentHash pgi)
                0 (mergedParagraphs page))
            0 pagesMarkdown
        else [])

/-! ### The `ensureConsistency` pass of `src/pdf/utils.ts`

Each global regex replacement of the source is modelled by a matcher that,
at a given position, either fails or returns the number of characters the
(greedy, backtracking) regex match consumes together with its replacement
text; a generic driver scans left to right exactly as a JS global
`String.prototype.replace` does (continue scanning after the end of each
match, never rescanning replacement text). -/

/-- Generic fuel-driven left-to-right global replace driver; fuel equal to
the input length suffices because every step consumes at least one
character. -/
def replaceScanFuel (matchAt : List Char → Option (Nat × List Char)) :
    Nat → List Char → List Char
  | 0, cs => cs
  | _ + 1, [] => []
  | fuel + 1, c :: cs =>
    match matchAt (c :: cs) with
    | some (len, repl) =>
      repl ++ replaceScanFuel matchAt fuel (List.drop (max len 1) (c :: cs))
    | none => c :: replaceScanFuel matchAt fuel cs

/-- Model of a JS global regex replace given a positional matcher. -/
def replaceScan (matchAt : List Char → Option (Nat × List Char))
    (cs : List Char) : List Char :=
  replaceScanFuel matchAt cs.length cs

/-- Matcher of `/(#{2,4}[^\n]+)\n([^\n])/g` replaced by `$1\n\n$2`: a
header line (at least two markers and at least one further non-newline
character, the greedy/backtracking split always letting `$1` cover the
whole non-newline run) followed by a single newline and a non-newline
character. -/
def s1Match (cs : List Char) : Option (Nat × List Char) :=
  let R := cs.takeWhile (fun c => c != '\n')
  let h := (R.takeWhile (fun c => c == '#')).length
  if 2 ≤ h ∧ 3 ≤ R.length then
    match cs.drop R.length with
    | '\n' :: d :: _ =>
      if d != '\n' then some (R.length + 2, R ++ ['\n', '\n', d]) else none
    | _ => none
  else none

/-- Matcher of `/([^\n])\n(#{2,4})/g` replaced by `$1\n\n$2`. -/
def s2Match (cs : List Char) : Option (Nat × List Char) :=
  match cs with
  | a :: '\n' :: rest =>
    if a != '\n' then
      let h := (rest.takeWhile (fun c => c == '#')).length
      if 2 ≤ h then
        let used := min h 4
        some (2 + used, a :: '\n' :: '\n' :: List.replicate used '#')
      else none
    else none
  | _ => none

/-- Matcher of `/\n{2,}(-|\d+\.)/g` replaced by `\n\n$1` (at most one blank
line before a list item). -/
def s3Match (cs : List Char) : Option (Nat × List Char) :=
  let k := (cs.takeWhile (fun c => c == '\n')).length
  if 2 ≤ k then
    match cs.drop k with
    | '-' :: _ => some (k + 1, ['\n', '\n', '-'])
    | rest =>
      let D := rest.takeWhile Char.isDigit
      if 1 ≤ D.length then
        match rest.drop D.length with
        | '.' :: _ => some (k + D.length + 1, '\n' :: '\n' :: (D ++ ['.']))
        | _ => none
      else none
  else none

/-- Matcher of `/(-|\d+\.[^\n]+)\n{3,}/g` replaced by `$1\n\n` (at most one
blank line after a list item). -/
def s4Match (cs : List Char) : Option (Nat × List Char) :=
  match cs with
  | '-' :: rest =>
    let k := (rest.takeWhile (fun c => c == '\n')).length
    if 3 ≤ k then some (1 + k, ['-', '\n', '\n']) else none
  | _ =>
    let D := cs.takeWhile Char.isDigit
    if 1 ≤ D.length then
      match cs.drop D.length with
      | '.' :: rest2 =>
        let X := rest2.takeWhile (fun c => c != '\n')
        if 1 ≤ X.length then
          let k := ((rest2.drop X.length).takeWhile (fun c => c == '\n')).length
          if 3 ≤ k then
            some (D.length + 1 + X.length + k, D ++ '.' :: (X ++ ['\n', '\n']))
          else none
        else none
      | _ => none
    else none

/-- Uppercase Greek letter ranges of the source regex `[Α-ΩΆ-Ώ]`. -/
def isGreekUpper (c : Char) : Bool :=
  (0x386 ≤ c.toNat && c.toNat ≤ 0x38F) || (0x391 ≤ c.toNat && c.toNat ≤ 0x3A9)

/-- Matcher of `/([.!?;])\n([Α-ΩΆ-Ώ])/g` replaced by `$1\n\n$2` (sentence
end followed by a capital letter starts a new paragraph). -/
def s5Match (cs : List Char) : Option (Nat × List Char) :=
  match cs with
  | a :: '\n' :: g :: _ =>
    if (a == '.' || a == '!' || a == '?' || a == ';') && isGreekUpper g then
      some (3, [a, '\n', '\n', g])
    else none
  | _ => none

/-- Matcher of `/\n{4,}/g` replaced by `\n\n` (at most two consecutive
blank lines). -/
def s6Match (cs : List Char) : Option (Nat × List Char) :=
  let k := (cs.takeWhile (fun c => c == '\n')).length
  if 4 ≤ k then some (k, ['\n', '\n']) else none

/-- Split at every single newline (for the `gm`-anchored line edits). -/
def splitOnNewline : List Char → List (List Char)
  | [] => [[]]
  | '\n' :: rest => [] :: splitOnNewline rest
  | c :: rest =>
    match splitOnNewline rest with
    | [] => [[c]]
    | l :: ls => (c :: l) :: ls

/-- Join lines back with single newlines. -/
def joinNewline : List (List Char) → List Char
  | [] => []
  | [l] => l
  | l :: l2 :: ls => l ++ '\n' :: joinNewline (l2 :: ls)

/-- Space or tab, the character class `[ \t]` of the line edits. -/
def isSpaceTab (c : Char) : Bool := c == ' ' || c == '\t'

/-- Model of `text.replace(/^[ \t]+/gm, '')`: strip leading spaces and tabs
of every line. -/
def stripLineLeading (cs : List Char) : List Char :=
  joinNewline ((splitOnNewline cs).map (fun l => l.dropWhile isSpaceTab))

/-- Model of `text.replace(/[ \t]+$/gm, '')`: strip trailing spaces and
tabs of every line. -/
def stripLineTrailing (cs : List Char) : List Char :=
  joinNewline ((splitOnNewline cs).map
    (fun l => (l.reverse.dropWhile isSpaceTab).reverse))

/-- Model of `ensureConsistency` in `src/pdf/utils.ts`: the final
whole-document normalisation pass, applying its eight global replacements
in source order and a final trim. -/
def ensureConsistency (text : String) : String :=
  let t1 := replaceScan s1Match text.data
  let t2 := replaceScan s2Match t1
  let t3 := replaceScan s3Match t2
  let t4 := replaceScan s4Match t3
  let t5 := replaceScan s5Match t4
  let t6 := replaceScan s6Match t5
  let t7 := stripLineLeading t6
  let t8 := stripLineTrailing t7
  jsTrim (String.mk t8)

/-- Model of the full-markdown assembly of `pdfToMarkdown_FEK`: the
per-page markdown strings are joined with the `\n\n---\n\n` page separator
and the result is normalised by `ensureConsistency`.  This is the
`fullMarkdown` value the ingestion pipeline feeds to the chunk builder. -/
def fekFullMarkdown (pageMarkdowns : List String) : String :=
  ensureConsistency (joinSep "\n\n---\n\n" pageMarkdowns)

/-! ### The OpenAI client of `src/openai.ts`

The provider is modelled by the list of outcomes of its successive call
attempts: each recursive retry of the source consumes the next outcome.
An empty outcome list models a call that never returns (the `none`
result); `rateLimited` models an error with `status === 429`. -/

/-- Outcome of one attempt to call the completion provider. -/
inductive ProviderOutcome where
  | ok (content : Option String) (totalTokens : Option Nat)
  | rateLimited
  | err (message : String)
  deriving DecidableEq, Repr

/-- The fixed apology fallback string of `generateAnswerFromResults`. -/
def apologyText : String :=
  "Sorry, I encountered an error while generating the response."

/-- The fallback used when the provider returns empty content. -/
def unableText : String := "Unable to generate response."

/-- Model of `OpenAIClient.generateAnswerFromResults`: on success, the
trimmed content (or the `unableText` fallback when the content is missing
or trims to empty) together with the token count; on a 429 error, an
unconditional recursive retry that drops the chat-history argument; on any
other error, the apology fallback with zero tokens.  `none` models a call
that never returns because the provider throttles forever. -/
def generateAnswerFromResults {S H : Type} (userQuery : String)
    (searchResults : List S) (chatHistory : List H)
    (attempts : List ProviderOutcome) : Option (String × Nat) :=
  match attempts with
  | [] => none
  | .ok content tokens :: _ =>
    some (((content.map jsTrim).filter (fun s => s != "")).getD unableText,
      tokens.getD 0)
  | .rateLimited :: rest =>
    generateAnswerFromResults userQuery searchResults ([] : List H) rest
  | .err _ :: _ => some (apologyText, 0)

/-- Model of `OpenAIClient.generateCleanUserPrompt`: on success, the
trimmed content (or the raw query when the content is missing or trims to
empty) with the token count; on a 429 error, an unconditional recursive
retry dropping the chat history; on any other error, the raw query with
zero tokens. -/
def generateCleanUserPrompt {H : Type} (query : String) (chatHistory : List H)
    (attempts : List ProviderOutcome) : Option (String × Nat) :=
  match attempts with
  | [] => none
  | .ok content tokens :: _ =>
    some (((content.map jsTrim).filter (fun s => s != "")).getD query,
      tokens.getD 0)
  | .rateLimited :: rest =>
    generateCleanUserPrompt query ([] : List H) rest
  | .err _ :: _ => some (query, 0)

/-! ### The conversation ledger of `src/db/postgress.ts` -/

/-- One row of the `chat_history` table. -/
structure ChatHistoryRow where
  id : Nat
  sessionId : Option String
  role : String
  content : String
  embTokens : Nat
  genTokens : Nat
  embModel : Option String
  genModel : Option String
  answerVal : Option String
  relativeDocs : Option String
  createdAt : Nat
  deriving DecidableEq, Repr

/-- Model of `PostgresService.updateAnswerValidation`: the SQL
`UPDATE chat_history SET answer_val = $v WHERE id = $id AND role =
'assistant'` over a list-of-rows table state. -/
def updateAnswerValidation (table : List ChatHistoryRow) (messageId : Nat)
    (answerVal : String) : List ChatHistoryRow :=
  table.map (fun row =>
    if row.id = messageId ∧ row.role = "assistant" then
      { row with answerVal := some answerVal }
    else row)

/-! ### The similarity search of `src/db/qdrant.ts` -/

/-- The query parameter object `QdrantService.similaritySearch` sends to
the vector store. -/
structure QdrantQueryParams where
  query : List Rat
  limit : Nat
  withPayload : Bool
  withVector : Bool
  scoreThreshold : Rat
  filter : Option String
  deriving DecidableEq, Repr

/-- Model of the query construction of `QdrantService.similaritySearch`:
a vector whose length disagrees with the configured dimension is a thrown
error; otherwise the issued query uses `scoreThreshold || 0.7`, i.e. the
default 0.7 whenever the caller's threshold is falsy (the number 0). -/
def similaritySearchQueryParams (embeddingDim : Nat) (vector : List Rat)
    (topK : Nat) (scoreThreshold : Rat) (filter : Option String) :
    Except String QdrantQueryParams :=
  if vector.length ≠ embeddingDim then
    Except.error "Vector dimension mismatch"
  else
    Except.ok
      { query := vector
        limit := topK
        withPayload := true
        withVector := false
        scoreThreshold := if scoreThreshold = 0 then 7 / 10 else scoreThreshold
        filter := filter }

/-! ### The merge pass as worded by the specification (for claim C2) -/

/-- The paragraph merge pass exactly as §4.1 of the specification words it:
a heading is merged with the immediately following paragraph when that one
exists and is not itself a heading; a paragraph shorter than the minimum
length is accumulated into a buffer that is flushed as one chunk when the
next paragraph is at least the minimum length, is a heading, or the input
ends; every other paragraph becomes a standalone chunk (flushing any
pending buffer first). -/
def specMergePass : List String → String → List String
  | [], buffer => if buffer = "" then [] else [buffer]
  | p :: rest, buffer =>
    if isHeading p then
      (if buffer = "" then [] else [buffer]) ++
        (match rest with
         | [] => [p]
         | q :: rest' =>
           if isHeading q then p :: specMergePass (q :: rest') ""
           else (p ++ "\n\n" ++ q) :: specMergePass rest' "")
    else if p.length < MIN_PARAGRAPH_LENGTH then
      let buffer' := if buffer = "" then p else buffer ++ "\n\n" ++ p
      match rest with
      | [] => [buffer']
      | q :: rest' =>
        if MIN_PARAGRAPH_LENGTH ≤ q.length ∨ isHeading q then
          buffer' :: specMergePass (q :: rest') ""
        else specMergePass (q :: rest') buffer'
    else
      (if buffer = "" then [] else [buffer]) ++ (p :: specMergePass rest "")

/-! ### Structural lemmas about the indexed map combinators -/

theorem mapIdx_length (f : Nat → α → β) :
    ∀ (n : Nat) (l : List α), (mapIdx f n l).length = l.length := by
  intro n l
  induction l generalizing n with
  | nil => rfl
  | cons a l ih => simp [mapIdx, ih]

theorem mapIdx_map (f : Nat → α → β) (g : β → γ) :
    ∀ (n : Nat) (l : List α),
      (mapIdx f n l).map g = mapIdx (fun i a => g (f i a)) n l := by
  intro n l
  induction l generalizing n with
  | nil => rfl
  | cons a l ih => simp [mapIdx, ih]

theorem mapIdx_ignore (g : Nat → β) :
    ∀ (n : Nat) (l : List α),
      mapIdx (fun i _ => g i) n l = (List.range' n l.length).map g := by
  intro n l
  induction l generalizing n with
  | nil => rfl
  | cons a l ih => simp [mapIdx, ih, List.range']

theorem mem_mapIdx (f : Nat → α → β) :
    ∀ (n : Nat) (l : List α) (c : β),
      c ∈ mapIdx f n l ↔ ∃ i a, l.get? i = some a ∧ c = f (n + i) a := by
  intro n l
  induction l generalizing n with
  | nil => intro c; simp [mapIdx]
  | cons a l ih =>
    intro c
    simp only [mapIdx, List.mem_cons, ih (n + 1)]
    constructor
    · rintro (rfl | ⟨i, b, hget, rfl⟩)
      · exact ⟨0, a, rfl, by simp⟩
      · exact ⟨i + 1, b, by simpa using hget, by rw [show n + (i + 1) = n + 1 + i by omega]⟩
    · rintro ⟨i, b, hget, rfl⟩
      cases i with
      | zero =>
        left
        have hb : b = a := by simpa using hget.symm
        subst hb
        simp
      | succ i =>
        right
        exact ⟨i, b, by simpa using hget, by rw [show n + (i + 1) = n + 1 + i by omega]⟩

theorem mapIdx_filter_keep (f : Nat → α → β) (p : β → Bool) :
    ∀ (n : Nat) (l : List α),
      (∀ j b, l.get? j = some b → p (f (n + j) b) = true) →
      (mapIdx f n l).filter p = mapIdx f n l := by
  intro n l
  induction l generalizing n with
  | nil => intro _; rfl
  | cons a l ih =>
    intro hp
    have h0 : p (f n a) = true := by
      have := hp 0 a rfl
      simpa using this
    have hrest := ih (n + 1) (fun j b hget => by
      have := hp (j + 1) b (by simpa using hget)
      rwa [show n + 1 + j = n + (j + 1) by omega])
    simp [mapIdx, List.filter_cons, h0, hrest]

theorem mapIdx_filter_nil (f : Nat → α → β) (p : β → Bool) :
    ∀ (n : Nat) (l : List α),
      (∀ j b, l.get? j = some b → p (f (n + j) b) = false) →
      (mapIdx f n l).filter p = [] := by
  intro n l
  induction l generalizing n with
  | nil => intro _; rfl
  | cons a l ih =>
    intro hp
    have h0 : p (f n a) = false := by
      have := hp 0 a rfl
      simpa using this
    have hrest := ih (n + 1) (fun j b hget => by
      have := hp (j + 1) b (by simpa using hget)
      rwa [show n + 1 + j = n + (j + 1) by omega])
    simp [mapIdx, List.filter_cons, h0, hrest]

theorem mapIdx_filter_singleton (f : Nat → α → β) (p : β → Bool) :
    ∀ (l : List α) (n i : Nat) (a : α), l.get? i = some a →
      (∀ j b, l.get? j = some b → (p (f (n + j) b) = true ↔ j = i)) →
      (mapIdx f n l).filter p = [f (n + i) a] := by
  intro l
  induction l with
  | nil => intro n i a h; simp at h
  | cons a0 l ih =>
    intro n i a hget hp
    cases i with
    | zero =>
      have ha : a = a0 := by simpa using hget.symm
      subst ha
      have h0 : p (f n a) = true := by
        have := (hp 0 a rfl).mpr rfl
        simpa using this
      have hrest : (mapIdx f (n + 1) l).filter p = [] := by
        apply mapIdx_filter_nil f p (n + 1) l
        intro j b hgetb
        have hiff := hp (j + 1) b (by simpa using hgetb)
        have h2 : p (f (n + (j + 1)) b) = false := by
          rcases Bool.eq_false_or_eq_true (p (f (n + (j + 1)) b)) with h | h
          · exact absurd (hiff.mp h) (by omega)
          · exact h
        rwa [show n + 1 + j = n + (j + 1) by omega]
      simp [mapIdx, List.filter_cons, h0, hrest]
    | succ i' =>
      have h0 : p (f n a0) = false := by
        have hiff := hp 0 a0 rfl
        simp only [Nat.add_zero] at hiff
        rcases Bool.eq_false_or_eq_true (p (f n a0)) with h | h
        · exact absurd (hiff.mp h) (by omega)
        · exact h
      have hrest := ih (n + 1) i' a (by simpa using hget) (fun j b hgetb => by
        have h2 := hp (j + 1) b (by simpa using hgetb)
        rw [show n + 1 + j = n + (j + 1) by omega]
        constructor
        · intro hx
          have := h2.mp hx
          omega
        · intro hx
          exact h2.mpr (by omega))
      simp only [mapIdx, List.filter_cons, h0, if_neg, Bool.false_eq_true, if_false]
      rw [hrest, show n + 1 + i' = n + (i' + 1) by omega]

theorem flatMapIdx_filter (F : Nat → α → List β) (p : β → Bool) :
    ∀ (n : Nat) (l : List α),
      (flatMapIdx F n l).filter p = flatMapIdx (fun i a => (F i a).filter p) n l := by
  intro n l
  induction l generalizing n with
  | nil => rfl
  | cons a l ih => simp [flatMapIdx, List.filter_append, ih]

theorem flatMapIdx_nil (F : Nat → α → List β) :
    ∀ (n : Nat) (l : List α),
      (∀ j b, l.get? j = some b → F (n + j) b = []) → flatMapIdx F n l = [] := by
  intro n l
  induction l generalizing n with
  | nil => intro _; rfl
  | cons a l ih =>
    intro hF
    have h0 : F n a = [] := by
      have := hF 0 a rfl
      simpa using this
    have hrest := ih (n + 1) (fun j b hget => by
      have := hF (j + 1) b (by simpa using hget)
      rwa [show n + 1 + j = n + (j + 1) by omega])
    simp [flatMapIdx, h0, hrest]

theorem mem_flatMapIdx (F : Nat → α → List β) :
    ∀ (n : Nat) (l : List α) (c : β),
      c ∈ flatMapIdx F n l ↔ ∃ i a, l.get? i = some a ∧ c ∈ F (n + i) a := by
  intro n l
  induction l generalizing n with
  | nil => intro c; simp [flatMapIdx]
  | cons a l ih =>
    intro c
    simp only [flatMapIdx, List.mem_append, ih (n + 1)]
    constructor
    · rintro (hc | ⟨i, b, hget, hc⟩)
      · exact ⟨0, a, rfl, by simpa using hc⟩
      · exact ⟨i + 1, b, by simpa using hget,
          by rwa [show n + (i + 1) = n + 1 + i by omega]⟩
    · rintro ⟨i, b, hget, hc⟩
      cases i with
      | zero =>
        left
        have hb : b = a := by simpa using hget.symm
        subst hb
        simpa using hc
      | succ i =>
        right
        exact ⟨i, b, by simpa using hget,
          by rwa [show n + 1 + i = n + (i + 1) by omega]⟩

theorem flatMapIdx_pick (F : Nat → α → List β) (p : β → Bool) :
    ∀ (l : List α) (n i : Nat) (a : α), l.get? i = some a →
      ((F (n + i) a).filter p = F (n + i) a) →
      (∀ j b, l.get? j = some b → j ≠ i → (F (n + j) b).filter p = []) →
      (flatMapIdx F n l).filter p = F (n + i) a := by
  intro l
  induction l with
  | nil => intro n i a h; simp at h
  | cons a0 l ih =>
    intro n i a hget hkeep hdrop
    cases i with
    | zero =>
      have ha : a = a0 := by simpa using hget.symm
      subst ha
      simp only [Nat.add_zero] at hkeep
      have hrest : (flatMapIdx F (n + 1) l).filter p = [] := by
        rw [flatMapIdx_filter]
        apply flatMapIdx_nil
        intro j b hgetb
        have := hdrop (j + 1) b (by simpa using hgetb) (by omega)
        rwa [show n + 1 + j = n + (j + 1) by omega]
      simp [flatMapIdx, List.filter_append, hkeep, hrest]
    | succ i' =>
      have h0 : (F n a0).filter p = [] := by
        have := hdrop 0 a0 rfl (by omega)
        simpa using this
      have hrest := ih (n + 1) i' a (by simpa using hget)
        (by rwa [show n + 1 + i' = n + (i' + 1) by omega])
        (fun j b hgetb hne => by
          have := hdrop (j + 1) b (by simpa using hgetb) (by omega)
          rwa [show n + 1 + j = n + (j + 1) by omega])
      simp only [flatMapIdx, List.filter_append, h0, List.nil_append]
      rw [hrest, show n + 1 + i' = n + (i' + 1) by omega]

/-! ### Characterisation of the builder output by chunk level -/

theorem filter_chunks_document (full : String) (pages : List String)
    (fn fp ff H : String) (pc : Bool) :
    (createMultiLevelChunks full pages fn fp ff H pc).filter
        (fun c => c.chunkLevel == "document")
      = [mkDocumentChunk full pages fn fp ff H] := by
  unfold createMultiLevelChunks
  have h1 : (mapIdx (mkPageChunk fn fp ff H) 0 pages).filter
      (fun c => c.chunkLevel == "document") = [] :=
    mapIdx_filter_nil _ _ 0 pages (fun j b _ => rfl)
  have h2 : ((if pc then
      flatMapIdx
        (fun pgi page =>
          mapIdx (mkParagraphChunk fn fp ff H pgi) 0 (mergedParagraphs page))
        0 pages
      else []) : List ChunkDoc).filter (fun c => c.chunkLevel == "document") = [] := by
    cases pc with
    | false => rfl
    | true =>
      rw [if_pos rfl, flatMapIdx_filter]
      exact flatMapIdx_nil _ 0 pages (fun j b _ =>
        mapIdx_filter_nil _ _ 0 (mergedParagraphs b) (fun k c _ => rfl))
  rw [List.filter_append, List.filter_cons, h1, h2]
  rfl

theorem filter_chunks_page (full : String) (pages : List String)
    (fn fp ff H : String) (pc : Bool) :
    (createMultiLevelChunks full pages fn fp ff H pc).filter
        (fun c => c.chunkLevel == "page")
      = mapIdx (mkPageChunk fn fp ff H) 0 pages := by
  unfold createMultiLevelChunks
  have h1 : (mapIdx (mkPageChunk fn fp ff H) 0 pages).filter
      (fun c => c.chunkLevel == "page") = mapIdx (mkPageChunk fn fp ff H) 0 pages :=
    mapIdx_filter_keep _ _ 0 pages (fun j b _ => rfl)
  have h2 : ((if pc then
      flatMapIdx
        (fun pgi page =>
          mapIdx (mkParagraphChunk fn fp ff H pgi) 0 (mergedParagraphs page))
        0 pages
      else []) : List ChunkDoc).filter (fun c => c.chunkLevel == "page") = [] := by
    cases pc with
    | false => rfl
    | true =>
      rw [if_pos rfl, flatMapIdx_filter]
      exact flatMapIdx_nil _ 0 pages (fun j b _ =>
        mapIdx_filter_nil _ _ 0 (mergedParagraphs b) (fun k c _ => rfl))
  rw [List.filter_append, List.filter_cons, h1, h2]
  simp [mkDocumentChunk]

theorem filter_chunks_paragraph (full : String) (pages : List String)
    (fn fp ff H : String) (i : Nat) (page : String)
    (hget : pages.get? i = some page) :
    (createMultiLevelChunks full pages fn fp ff H true).filter
        (fun c => c.chunkLevel == "paragraph" && c.pageNumber == some (i + 1))
      = mapIdx (mkParagraphChunk fn fp ff H i) 0 (mergedParagraphs page) := by
  unfold createMultiLevelChunks
  rw [if_pos rfl]
  have h1 : (mapIdx (mkPageChunk fn fp ff H) 0 pages).filter
      (fun c => c.chunkLevel == "paragraph" && c.pageNumber == some (i + 1)) = [] :=
    mapIdx_filter_nil _ _ 0 pages (fun j b _ => rfl)
  have h2 : (flatMapIdx
      (fun pgi page =>
        mapIdx (mkParagraphChunk fn fp ff H pgi) 0 (mergedParagraphs page))
      0 pages).filter
        (fun c => c.chunkLevel == "paragraph" && c.pageNumber == some (i + 1))
      = mapIdx (mkParagraphChunk fn fp ff H (0 + i)) 0 (mergedParagraphs page) := by
    apply flatMapIdx_pick _ _ pages 0 i page hget
    · apply mapIdx_filter_keep
      intro k c _
      simp only [mkParagraphChunk, Nat.zero_add]
      simp
    · intro j b _ hne
      apply mapIdx_filter_nil
      intro k c _
      simp only [mkParagraphChunk, Nat.zero_add]
      simp only [Bool.and_eq_false_iff]
      right
      rw [Bool.eq_false_iff]
      intro hx
      have := eq_of_beq hx
      simp at this
      omega
  rw [List.filter_append, List.filter_cons, h1, h2]
  simp [mkDocumentChunk]

/-- C1: the builder output has exactly one document-level chunk, with id
equal to the document hash and no parents; exactly one page-level chunk
per input page, in input order, with id `hash-(i+1)` and the document id
as sole parent; and the paragraph chunks of page `i` carry, in emission
order, the ids `hash-(i+1)-k` for `k = 1, 2, ...` with the page chunk id
as sole parent. -/
theorem chunks_C1 (full : String) (pages : List String) (fn fp ff H : String)
    (pc : Bool) :
    (((createMultiLevelChunks full pages fn fp ff H pc).filter
        (fun c => c.chunkLevel == "document")).map
          (fun c => (c.chunkId, c.parentIds))
      = [(H, ([] : List String))])
    ∧ (((createMultiLevelChunks full pages fn fp ff H pc).filter
        (fun c => c.chunkLevel == "page")).map
          (fun c => (c.chunkId, c.parentIds))
      = (List.range pages.length).map
          (fun i => (H ++ "-" ++ natToString (i + 1), [H])))
    ∧ (∀ i page, pages.get? i = some page → pc = true →
        (((createMultiLevelChunks full pages fn fp ff H pc).filter
            (fun c => c.chunkLevel == "paragraph" && c.pageNumber == some (i + 1))).map
              (fun c => (c.chunkId, c.parentIds))
          = (List.range (mergedParagraphs page).length).map
              (fun k => (H ++ "-" ++ natToString (i + 1) ++ "-" ++ natToString (k + 1),
                [H ++ "-" ++ natToString (i + 1)])))) := by
  refine ⟨?_, ?_, ?_⟩
  · rw [filter_chunks_document]
    rfl
  · rw [filter_chunks_page, mapIdx_map]
    have heq : (fun (i : Nat) (a : String) =>
        ((mkPageChunk fn fp ff H i a).chunkId, (mkPageChunk fn fp ff H i a).parentIds))
        = (fun (i : Nat) (_ : String) => (H ++ "-" ++ natToString (i + 1), [H])) := rfl
    rw [heq, mapIdx_ignore, ← List.range_eq_range']
  · intro i page hget hpc
    subst hpc
    rw [filter_chunks_paragraph full pages fn fp ff H i page hget, mapIdx_map]
    have heq : (fun (k : Nat) (a : String) =>
        ((mkParagraphChunk fn fp ff H i k a).chunkId,
          (mkParagraphChunk fn fp ff H i k a).parentIds))
        = (fun (k : Nat) (_ : String) =>
            (H ++ "-" ++ natToString (i + 1) ++ "-" ++ natToString (k + 1),
              [H ++ "-" ++ natToString (i + 1)])) := rfl
    rw [heq, mapIdx_ignore, ← List.range_eq_range']

/-- Witness for C1 at a concrete input: one page, paragraph chunking on. -/
theorem chunks_C1_witness :
    (((createMultiLevelChunks "f" ["x"] "n" "p" "F" "h" true).filter
        (fun c => c.chunkLevel == "paragraph" && c.pageNumber == some 1)).map
          (fun c => (c.chunkId, c.parentIds)))
      = (List.range (mergedParagraphs "x").length).map
          (fun k => ("h" ++ "-" ++ natToString 1 ++ "-" ++ natToString (k + 1),
            ["h" ++ "-" ++ natToString 1])) :=
  (chunks_C1 "f" ["x"] "n" "p" "F" "h" true).2.2 0 "x" rfl rfl

/-! ### Hierarchy integrity (claim C3) -/

/-- The level immediately above a chunk level in the three-level
hierarchy. -/
def levelAbove : String → String
  | "page" => "document"
  | "paragraph" => "page"
  | _ => ""

theorem pageChunkIdOf_inj {H : String} {i j : Nat}
    (h : pageChunkIdOf H i = pageChunkIdOf H j) : i = j := by
  have hd := congrArg String.data h
  simp only [pageChunkIdOf, String.data_append] at hd
  have h2 := List.append_cancel_left hd
  have h3 : natToString (i + 1) = natToString (j + 1) := congrArg String.mk h2
  have := natToString_inj h3
  omega

theorem filter_id_document (full : String) (pages : List String)
    (fn fp ff H : String) (pc : Bool) :
    (createMultiLevelChunks full pages fn fp ff H pc).filter
        (fun p => p.chunkId == H && p.chunkLevel == "document")
      = [mkDocumentChunk full pages fn fp ff H] := by
  unfold createMultiLevelChunks
  have h1 : (mapIdx (mkPageChunk fn fp ff H) 0 pages).filter
      (fun p => p.chunkId == H && p.chunkLevel == "document") = [] :=
    mapIdx_filter_nil _ _ 0 pages (fun j b _ => by simp [mkPageChunk])
  have h2 : ((if pc then
      flatMapIdx
        (fun pgi page =>
          mapIdx (mkParagraphChunk fn fp ff H pgi) 0 (mergedParagraphs page))
        0 pages
      else []) : List ChunkDoc).filter
        (fun p => p.chunkId == H && p.chunkLevel == "document") = [] := by
    cases pc with
    | false => rfl
    | true =>
      rw [if_pos rfl, flatMapIdx_filter]
      exact flatMapIdx_nil _ 0 pages (fun j b _ =>
        mapIdx_filter_nil _ _ 0 (mergedParagraphs b)
          (fun k c _ => by simp [mkParagraphChunk]))
  rw [List.filter_append, List.filter_cons, h1, h2]
  simp [mkDocumentChunk]

theorem filter_id_page (full : String) (pages : List String)
    (fn fp ff H : String) (pc : Bool) (i : Nat) (page : String)
    (hget : pages.get? i = some page) :
    (createMultiLevelChunks full pages fn fp ff H pc).filter
        (fun p => p.chunkId == pageChunkIdOf H i && p.chunkLevel == "page")
      = [mkPageChunk fn fp ff H i page] := by
  unfold createMultiLevelChunks
  have h1 : (mapIdx (mkPageChunk fn fp ff H) 0 pages).filter
      (fun p => p.chunkId == pageChunkIdOf H i && p.chunkLevel == "page")
      = [mkPageChunk fn fp ff H (0 + i) page] := by
    apply mapIdx_filter_singleton _ _ pages 0 i page hget
    intro j b _
    constructor
    · intro hx
      simp only [mkPageChunk, Bool.and_eq_true] at hx
      have := eq_of_beq hx.1
      have := pageChunkIdOf_inj this
      omega
    · rintro rfl
      simp [mkPageChunk]
  have h2 : ((if pc then
      flatMapIdx
        (fun pgi page =>
          mapIdx (mkParagraphChunk fn fp ff H pgi) 0 (mergedParagraphs page))
        0 pages
      else []) : List ChunkDoc).filter
        (fun p => p.chunkId == pageChunkIdOf H i && p.chunkLevel == "page") = [] := by
    cases pc with
    | false => rfl
    | true =>
      rw [if_pos rfl, flatMapIdx_filter]
      exact flatMapIdx_nil _ 0 pages (fun j b _ =>
        mapIdx_filter_nil _ _ 0 (mergedParagraphs b)
          (fun k c _ => by simp [mkParagraphChunk]))
  rw [List.filter_append, List.filter_cons, h1, h2]
  simp [mkDocumentChunk, Nat.zero_add]

/-- C3: every chunk of the builder output whose level is not `document`
has a one-element parent list, and exactly one chunk of the same output
carries that parent id together with the level immediately above the
child's level. -/
theorem chunks_C3 (full : String) (pages : List String) (fn fp ff H : String)
    (pc : Bool) :
    ∀ c ∈ createMultiLevelChunks full pages fn fp ff H pc,
      c.chunkLevel ≠ "document" →
      ∃ pid, c.parentIds = [pid] ∧
        (createMultiLevelChunks full pages fn fp ff H pc).countP
            (fun p => p.chunkId == pid && p.chunkLevel == levelAbove c.chunkLevel)
          = 1 := by
  intro c hc hne
  have hc' : c ∈ (mkDocumentChunk full pages fn fp ff H
        :: mapIdx (mkPageChunk fn fp ff H) 0 pages)
      ++ (if pc then
            flatMapIdx
              (fun pgi page =>
                mapIdx (mkParagraphChunk fn fp ff H pgi) 0 (mergedParagraphs page))
              0 pages
          else []) := hc
  rcases List.mem_append.mp hc' with hc1 | hc2
  · rcases List.mem_cons.mp hc1 with rfl | hcp
    · exact absurd rfl hne
    · rw [mem_mapIdx] at hcp
      obtain ⟨i, page, hget, rfl⟩ := hcp
      refine ⟨H, rfl, ?_⟩
      have hl : levelAbove (mkPageChunk fn fp ff H (0 + i) page).chunkLevel
          = "document" := rfl
      rw [hl, List.countP_eq_length_filter, filter_id_document]
      rfl
  · cases pc with
    | false => simp at hc2
    | true =>
      rw [if_pos rfl, mem_flatMapIdx] at hc2
      obtain ⟨i, page, hget, hcp⟩ := hc2
      rw [mem_mapIdx] at hcp
      obtain ⟨k, para, hgetk, rfl⟩ := hcp
      refine ⟨pageChunkIdOf H (0 + i), rfl, ?_⟩
      have hl : levelAbove (mkParagraphChunk fn fp ff H (0 + i) (0 + k) para).chunkLevel
          = "page" := rfl
      rw [hl, List.countP_eq_length_filter,
        filter_id_page full pages fn fp ff H true (0 + i) page (by simpa using hget)]
      rfl

/-- Witness for C3 at a concrete input: the single page chunk of a
one-page build has the document chunk as its unique parent. -/
theorem chunks_C3_witness :
    ∃ pid, (mkPageChunk "n" "p" "F" "h" 0 "x").parentIds = [pid] ∧
      (createMultiLevelChunks "f" ["x"] "n" "p" "F" "h" true).countP
          (fun p => p.chunkId == pid &&
            p.chunkLevel == levelAbove (mkPageChunk "n" "p" "F" "h" 0 "x").chunkLevel)
        = 1 :=
  chunks_C3 "f" ["x"] "n" "p" "F" "h" true (mkPageChunk "n" "p" "F" "h" 0 "x")
    (by decide) (by decide)

/-! ### Determinism of the builder (claim C4) -/

/-- C4: the chunk builder is a pure function of its inputs — two calls
with identical full text, page texts, document identity fields and
paragraph-chunking flag produce identical chunk lists. -/
theorem chunks_C4 (full : String) (pages : List String) (fn fp ff H : String)
    (pc : Bool) (full' : String) (pages' : List String) (fn' fp' ff' H' : String)
    (pc' : Bool) (h1 : full = full') (h2 : pages = pages') (h3 : fn = fn')
    (h4 : fp = fp') (h5 : ff = ff') (h6 : H = H') (h7 : pc = pc') :
    createMultiLevelChunks full pages fn fp ff H pc
      = createMultiLevelChunks full' pages' fn' fp' ff' H' pc' := by
  subst h1 h2 h3 h4 h5 h6 h7
  rfl

/-- Witness for C4 at a concrete input. -/
theorem chunks_C4_witness :
    createMultiLevelChunks "f" ["x"] "n" "p" "F" "h" true
      = createMultiLevelChunks "f" ["x"] "n" "p" "F" "h" true :=
  chunks_C4 "f" ["x"] "n" "p" "F" "h" true "f" ["x"] "n" "p" "F" "h" true
    rfl rfl rfl rfl rfl rfl rfl

/-! ### Retry behaviour of the answer synthesizer and the query refiner -/

theorem generateAnswer_history_irrelevant {S H H' : Type} (q : String)
    (sr : List S) :
    ∀ (attempts : List ProviderOutcome) (h : List H) (h' : List H'),
      generateAnswerFromResults q sr h attempts
        = generateAnswerFromResults q sr h' attempts := by
  intro attempts
  induction attempts with
  | nil => intro h h'; rfl
  | cons a rest ih =>
    intro h h'
    cases a with
    | ok content tokens => rfl
    | rateLimited =>
      show generateAnswerFromResults q sr ([] : List H) rest
          = generateAnswerFromResults q sr ([] : List H') rest
      exact ih [] []
    | err msg => rfl

theorem generateAnswer_skip_throttle {S H : Type} (q : String) (sr : List S)
    (h : List H) (k : Nat) (rest : List ProviderOutcome) :
    generateAnswerFromResults q sr h
        (List.replicate k ProviderOutcome.rateLimited ++ rest)
      = generateAnswerFromResults q sr h rest := by
  induction k generalizing h with
  | zero => rfl
  | succ k ih =>
    show generateAnswerFromResults q sr ([] : List H)
        (List.replicate k ProviderOutcome.rateLimited ++ rest)
      = generateAnswerFromResults q sr h rest
    rw [ih ([] : List H)]
    exact generateAnswer_history_irrelevant q sr rest [] h

theorem generateCleanPrompt_history_irrelevant {H H' : Type} (q : String) :
    ∀ (attempts : List ProviderOutcome) (h : List H) (h' : List H'),
      generateCleanUserPrompt q h attempts = generateCleanUserPrompt q h' attempts := by
  intro attempts
  induction attempts with
  | nil => intro h h'; rfl
  | cons a rest ih =>
    intro h h'
    cases a with
    | ok content tokens => rfl
    | rateLimited =>
      show generateCleanUserPrompt q ([] : List H) rest
          = generateCleanUserPrompt q ([] : List H') rest
      exact ih [] []
    | err msg => rfl

theorem generateCleanPrompt_skip_throttle {H : Type} (q : String) (h : List H)
    (k : Nat) (rest : List ProviderOutcome) :
    generateCleanUserPrompt q h
        (List.replicate k ProviderOutcome.rateLimited ++ rest)
      = generateCleanUserPrompt q h rest := by
  induction k generalizing h with
  | zero => rfl
  | succ k ih =>
    show generateCleanUserPrompt q ([] : List H)
        (List.replicate k ProviderOutcome.rateLimited ++ rest)
      = generateCleanUserPrompt q h rest
    rw [ih ([] : List H)]
    exact generateCleanPrompt_history_irrelevant q rest [] h

/-- C6 counterexample: after two consecutive throttled attempts the
synthesizer does not surface a failure — it consumes a third provider
attempt and returns its answer, so it retries more than once. -/
theorem openai_C6_counterexample :
    ¬ ∀ rest : List ProviderOutcome,
        generateAnswerFromResults "q" ([] : List Nat) ([] : List Nat)
          (ProviderOutcome.rateLimited :: ProviderOutcome.rateLimited :: rest)
          = none := by
  intro hclaim
  have := hclaim [ProviderOutcome.ok (some "ok") (some 5)]
  exact absurd this (by decide)

/-- C6 (amended): on throttling the synthesizer retries after the fixed
backoff without any retry limit — any number of consecutive throttled
attempts is skipped and the result is that of the first non-throttled
attempt; a throttling failure is never surfaced (and the retry drops the
chat history, which does not affect the returned value). -/
theorem openai_C6 {S H : Type} (q : String) (sr : List S) (h : List H)
    (k : Nat) (rest : List ProviderOutcome) :
    generateAnswerFromResults q sr h
        (List.replicate k ProviderOutcome.rateLimited ++ rest)
      = generateAnswerFromResults q sr h rest :=
  generateAnswer_skip_throttle q sr h k rest

/-- C7: when the provider fails with any error other than throttling
(after any number of throttled attempts), the synthesizer propagates
nothing: it returns the fixed apology string with zero tokens. -/
theorem openai_C7 {S H : Type} (q : String) (sr : List S) (h : List H)
    (k : Nat) (msg : String) (rest : List ProviderOutcome) :
    generateAnswerFromResults q sr h
        (List.replicate k ProviderOutcome.rateLimited
          ++ ProviderOutcome.err msg :: rest)
      = some (apologyText, 0) := by
  rw [generateAnswer_skip_throttle]
  rfl

/-- C8: when the provider fails with a non-throttling error (after any
number of throttled attempts), the query refiner does not raise: it
returns the raw query unchanged with zero tokens. -/
theorem openai_C8 {H : Type} (q : String) (h : List H) (k : Nat)
    (msg : String) (rest : List ProviderOutcome) :
    generateCleanUserPrompt q h
        (List.replicate k ProviderOutcome.rateLimited
          ++ ProviderOutcome.err msg :: rest)
      = some (q, 0) := by
  rw [generateCleanPrompt_skip_throttle]
  rfl

/-! ### Frame property of the feedback update (claim C9) -/

/-- C9: `updateAnswerValidation` touches at most the `answer_val` field of
the assistant row with the targeted id: the table keeps its length, every
row keeps every field other than `answer_val`, `answer_val` changes only
on the row whose id matches and whose role is `assistant`, and when no
such row exists the whole table state is unchanged. -/
theorem postgres_C9 (table : List ChatHistoryRow) (messageId : Nat)
    (rating : String) :
    (updateAnswerValidation table messageId rating).length = table.length
    ∧ (∀ i row, table.get? i = some row →
        ∃ row', (updateAnswerValidation table messageId rating).get? i = some row'
          ∧ row'.id = row.id ∧ row'.sessionId = row.sessionId
          ∧ row'.role = row.role ∧ row'.content = row.content
          ∧ row'.embTokens = row.embTokens ∧ row'.genTokens = row.genTokens
          ∧ row'.embModel = row.embModel ∧ row'.genModel = row.genModel
          ∧ row'.relativeDocs = row.relativeDocs ∧ row'.createdAt = row.createdAt
          ∧ (row.id = messageId ∧ row.role = "assistant" →
              row'.answerVal = some rating)
          ∧ (¬ (row.id = messageId ∧ row.role = "assistant") →
              row'.answerVal = row.answerVal))
    ∧ ((∀ row ∈ table, ¬ (row.id = messageId ∧ row.role = "assistant")) →
        updateAnswerValidation table messageId rating = table) := by
  refine ⟨?_, ?_, ?_⟩
  · simp [updateAnswerValidation]
  · intro i row hrow
    refine ⟨if row.id = messageId ∧ row.role = "assistant" then
        { row with answerVal := some rating } else row, ?_, ?_⟩
    · unfold updateAnswerValidation
      rw [List.get?_map, hrow]
      rfl
    · by_cases hcond : row.id = messageId ∧ row.role = "assistant"
      · simp [hcond]
      · simp [hcond]
  · intro hnone
    have hcongr : ∀ row ∈ table,
        (if row.id = messageId ∧ row.role = "assistant" then
            { row with answerVal := some rating } else row) = row := by
      intro row hrow
      rw [if_neg (hnone row hrow)]
    calc updateAnswerValidation table messageId rating
        = table.map id := List.map_congr_left hcongr
      _ = table := List.map_id table

/-- Witness for C9: rating an id that belongs to a `user` row leaves the
table unchanged. -/
theorem postgres_C9_witness :
    updateAnswerValidation
        [{ id := 1, sessionId := some "s", role := "user", content := "hi",
           embTokens := 0, genTokens := 0, embModel := none, genModel := none,
           answerVal := none, relativeDocs := none, createdAt := 0 }] 1 "bad"
      = [{ id := 1, sessionId := some "s", role := "user", content := "hi",
           embTokens := 0, genTokens := 0, embModel := none, genModel := none,
           answerVal := none, relativeDocs := none, createdAt := 0 }] :=
  (postgres_C9
    [{ id := 1, sessionId := some "s", role := "user", content := "hi",
       embTokens := 0, genTokens := 0, embModel := none, genModel := none,
       answerVal := none, relativeDocs := none, createdAt := 0 }] 1 "bad").2.2
    (by decide)

/-! ### Score threshold defaulting of the similarity search (claim C10) -/

/-- C10: with a matching vector dimension, a caller-supplied score
threshold of 0 (the falsy number) is replaced by the built-in default 0.7
in the query issued to the vector store — a threshold of exactly 0 can
never take effect — while every non-zero threshold is passed through
exactly. -/
theorem qdrant_C10 (dim : Nat) (vector : List Rat) (topK : Nat) (t : Rat)
    (filter : Option String) (hdim : vector.length = dim) :
    similaritySearchQueryParams dim vector topK 0 filter
      = Except.ok
          { query := vector, limit := topK, withPayload := true,
            withVector := false, scoreThreshold := 7 / 10, filter := filter }
    ∧ (t ≠ 0 →
        similaritySearchQueryParams dim vector topK t filter
          = Except.ok
              { query := vector, limit := topK, withPayload := true,
                withVector := false, scoreThreshold := t, filter := filter }) := by
  constructor
  · simp [similaritySearchQueryParams, hdim]
  · intro ht
    simp [similaritySearchQueryParams, hdim, ht]

/-- Witness for C10 at a concrete vector and threshold. -/
theorem qdrant_C10_witness :
    (similaritySearchQueryParams 2 [1, 0] 5 0 none
      = Except.ok
          { query := [1, 0], limit := 5, withPayload := true,
            withVector := false, scoreThreshold := 7 / 10, filter := none })
    ∧ (similaritySearchQueryParams 2 [1, 0] 5 (1 / 2) none
      = Except.ok
          { query := [1, 0], limit := 5, withPayload := true,
            withVector := false, scoreThreshold := 1 / 2, filter := none }) :=
  ⟨(qdrant_C10 2 [1, 0] 5 (1 / 2) none rfl).1,
    (qdrant_C10 2 [1, 0] 5 (1 / 2) none rfl).2 (by norm_num)⟩

/-! ### The merge pass agrees with the specification wording (claim C2) -/

theorem merge_eq_spec_aux :
    ∀ (n : Nat) (l : List String) (buffer : String), l.length ≤ n →
      (∀ p l', l = p :: l' → buffer ≠ "" → isHeading p = false) →
      mergeParagraphs l buffer = specMergePass l buffer := by
  intro n
  induction n with
  | zero =>
    intro l buffer hlen _
    cases l with
    | nil => rfl
    | cons p rest => simp at hlen
  | succ n ih =>
    intro l buffer hlen hbuf
    cases l with
    | nil => rfl
    | cons p rest =>
      simp only [List.length_cons] at hlen
      by_cases hp : isHeading p
      · have hbempty : buffer = "" := by
          by_contra hne
          have h0 := hbuf p rest rfl hne
          rw [h0] at hp
          simp at hp
        subst hbempty
        cases rest with
        | nil => simp [mergeParagraphs, specMergePass, hp]
        | cons q rest' =>
          simp only [List.length_cons] at hlen
          by_cases hq : isHeading q
          · have hrec := ih (q :: rest') "" (by simp; omega)
              (fun _ _ _ hne => absurd rfl hne)
            simp [mergeParagraphs, specMergePass, hp, hq, hrec]
          · have hrec := ih rest' "" (by omega)
              (fun _ _ _ hne => absurd rfl hne)
            simp [mergeParagraphs, specMergePass, hp, hq, hrec]
      · by_cases hsmall : p.length < MIN_PARAGRAPH_LENGTH
        · cases rest with
          | nil => simp [mergeParagraphs, specMergePass, hp, hsmall]
          | cons q rest' =>
            simp only [List.length_cons] at hlen
            by_cases hcond : MIN_PARAGRAPH_LENGTH ≤ q.length ∨ isHeading q
            · have hrec := ih (q :: rest') "" (by simp; omega)
                (fun _ _ _ hne => absurd rfl hne)
              simp [mergeParagraphs, specMergePass, hp, hsmall, hcond, hrec]
            · have hqf : isHeading q = false := by
                rcases not_or.mp hcond with ⟨_, hq2⟩
                simpa using hq2
              have hrec := ih (q :: rest')
                  (if buffer = "" then p else buffer ++ "\n\n" ++ p)
                  (by simp; omega)
                  (fun r l' hrl _ => by
                    have : r = q := by
                      have := congrArg (fun l => l.head?) hrl
                      simpa using this.symm
                    rw [this]
                    exact hqf)
              simp [mergeParagraphs, specMergePass, hp, hsmall, hcond, hrec]
        · cases rest with
          | nil =>
            by_cases hb : buffer = ""
            · simp [mergeParagraphs, specMergePass, hp, hsmall, hb]
            · simp [mergeParagraphs, specMergePass, hp, hsmall, hb]
          | cons q rest' =>
            simp only [List.length_cons] at hlen
            have hrec := ih (q :: rest') "" (by simp; omega)
              (fun _ _ _ hne => absurd rfl hne)
            by_cases hb : buffer = ""
            · simp [mergeParagraphs, specMergePass, hp, hsmall, hb, hrec]
            · simp [mergeParagraphs, specMergePass, hp, hsmall, hb, hrec]

set_option maxRecDepth 20000 in
/-- C2: the builder's paragraph emission for a page is exactly the merge
pass the specification describes (headings merged forward into the next
non-heading paragraph, short paragraphs accumulated and flushed at a long
paragraph, a heading, or end of input, all others standalone); in
particular a page of three paragraphs of lengths 10, 10 and 150 yields
exactly the merged first two followed by the third. -/
theorem chunks_C2 :
    (∀ page : String, mergedParagraphs page = specMergePass (rawParagraphs page) "")
    ∧ mergedParagraphs
        ("aaaaaaaaaa\n\nbbbbbbbbbb\n\n" ++ String.mk (List.replicate 150 'c'))
      = ["aaaaaaaaaa\n\nbbbbbbbbbb", String.mk (List.replicate 150 'c')] := by
  constructor
  · intro page
    exact merge_eq_spec_aux (rawParagraphs page).length (rawParagraphs page) ""
      le_rfl (fun _ _ _ hne => absurd rfl hne)
  · decide

/-! ### Text recovery across the chunk levels (claim C5) -/

theorem joinSep_cons_ne (sep a : String) {l : List String} (h : l ≠ []) :
    joinSep sep (a :: l) = a ++ sep ++ joinSep sep l := by
  cases l with
  | nil => exact absurd rfl h
  | cons b m => rfl

theorem mapIdx_snd (g : α → β) :
    ∀ (n : Nat) (l : List α), mapIdx (fun _ a => g a) n l = l.map g := by
  intro n l
  induction l generalizing n with
  | nil => rfl
  | cons a l ih => simp [mapIdx, ih]

theorem rawParagraphs_ne_empty (page : String) :
    ∀ p ∈ rawParagraphs page, p ≠ "" := by
  intro p hp
  unfold rawParagraphs at hp
  rcases List.mem_filter.mp hp with ⟨_, h2⟩
  intro hc
  rw [hc] at h2
  simp at h2

theorem merge_ne_nil_aux :
    ∀ (n : Nat) (p : String) (rest : List String) (buffer : String),
      rest.length ≤ n → mergeParagraphs (p :: rest) buffer ≠ [] := by
  intro n
  induction n with
  | zero =>
    intro p rest buffer hlen
    cases rest with
    | nil =>
      by_cases hp : isHeading p
      · simp [mergeParagraphs, hp]
      · by_cases hs : p.length < MIN_PARAGRAPH_LENGTH
        · simp [mergeParagraphs, hp, hs]
        · by_cases hb : buffer = "" <;> simp [mergeParagraphs, hp, hs, hb]
    | cons q rest' =>
      simp only [List.length_cons] at hlen
      omega
  | succ n ih =>
    intro p rest buffer hlen
    cases rest with
    | nil =>
      by_cases hp : isHeading p
      · simp [mergeParagraphs, hp]
      · by_cases hs : p.length < MIN_PARAGRAPH_LENGTH
        · simp [mergeParagraphs, hp, hs]
        · by_cases hb : buffer = "" <;> simp [mergeParagraphs, hp, hs, hb]
    | cons q rest' =>
      simp only [List.length_cons] at hlen
      by_cases hp : isHeading p
      · by_cases hq : isHeading q <;> simp [mergeParagraphs, hp, hq]
      · by_cases hs : p.length < MIN_PARAGRAPH_LENGTH
        · by_cases hcond : MIN_PARAGRAPH_LENGTH ≤ q.length ∨ isHeading q
          · simp [mergeParagraphs, hp, hs, hcond]
          · have := ih q rest'
              (if buffer = "" then p else buffer ++ "\n\n" ++ p) (by omega)
            simpa [mergeParagraphs, hp, hs, hcond] using this
        · by_cases hb : buffer = "" <;> simp [mergeParagraphs, hp, hs, hb]

theorem merge_join_aux :
    ∀ (n : Nat) (l : List String) (buffer : String), l.length ≤ n →
      (∀ p ∈ l, p ≠ "") →
      (∀ p l', l = p :: l' → buffer ≠ "" → isHeading p = false) →
      joinSep "\n\n" (mergeParagraphs l buffer)
        = joinSep "\n\n" (if buffer = "" then l else buffer :: l) := by
  intro n
  induction n with
  | zero =>
    intro l buffer hlen _ _
    cases l with
    | nil => by_cases hb : buffer = "" <;> simp [mergeParagraphs, hb]
    | cons p rest => simp at hlen
  | succ n ih =>
    intro l buffer hlen hall hbuf
    cases l with
    | nil => by_cases hb : buffer = "" <;> simp [mergeParagraphs, hb]
    | cons p rest =>
      simp only [List.length_cons] at hlen
      have hpne : p ≠ "" := hall p (List.mem_cons_self p rest)
      have hallrest : ∀ r ∈ rest, r ≠ "" := fun r hr => hall r (List.mem_cons_of_mem p hr)
      by_cases hp : isHeading p
      · have hbempty : buffer = "" := by
          by_contra hne
          have h0 := hbuf p rest rfl hne
          rw [h0] at hp
          simp at hp
        subst hbempty
        rw [if_pos rfl]
        cases rest with
        | nil => simp [mergeParagraphs, hp]
        | cons q rest' =>
          simp only [List.length_cons] at hlen
          by_cases hq : isHeading q
          · have heq : mergeParagraphs (p :: q :: rest') ""
                = p :: mergeParagraphs (q :: rest') "" := by
              simp [mergeParagraphs, hp, hq]
            have hne : mergeParagraphs (q :: rest') "" ≠ [] :=
              merge_ne_nil_aux n q rest' "" (by omega)
            have hrec := ih (q :: rest') "" (by simp; omega) hallrest
              (fun _ _ _ hc => absurd rfl hc)
            rw [if_pos rfl] at hrec
            rw [heq, joinSep_cons_ne _ _ hne, hrec,
              joinSep_cons_ne _ _ (List.cons_ne_nil q rest')]
          · have heq : mergeParagraphs (p :: q :: rest') ""
                = (p ++ "\n\n" ++ q) :: mergeParagraphs rest' "" := by
              simp [mergeParagraphs, hp, hq]
            rw [heq]
            cases rest' with
            | nil => simp [mergeParagraphs, joinSep]
            | cons r rs =>
              simp only [List.length_cons] at hlen
              have hne : mergeParagraphs (r :: rs) "" ≠ [] :=
                merge_ne_nil_aux n r rs "" (by omega)
              have hrec := ih (r :: rs) "" (by simp; omega)
                (fun x hx => hallrest x (List.mem_cons_of_mem q hx))
                (fun _ _ _ hc => absurd rfl hc)
              rw [if_pos rfl] at hrec
              rw [joinSep_cons_ne _ _ hne, hrec,
                joinSep_cons_ne _ _ (List.cons_ne_nil q (r :: rs)),
                joinSep_cons_ne _ _ (List.cons_ne_nil r rs)]
              simp [String.append_assoc]
      · by_cases hs : p.length < MIN_PARAGRAPH_LENGTH
        · cases rest with
          | nil =>
            by_cases hb : buffer = "" <;>
              simp [mergeParagraphs, hp, hs, hb, joinSep]
          | cons q rest' =>
            simp only [List.length_cons] at hlen
            by_cases hcond : MIN_PARAGRAPH_LENGTH ≤ q.length ∨ isHeading q
            · have heq : mergeParagraphs (p :: q :: rest') buffer
                  = (if buffer = "" then p else buffer ++ "\n\n" ++ p)
                    :: mergeParagraphs (q :: rest') "" := by
                simp [mergeParagraphs, hp, hs, hcond]
              have hne := merge_ne_nil_aux n q rest' "" (by omega)
              have hrec := ih (q :: rest') "" (by simp; omega) hallrest
                (fun _ _ _ hc => absurd rfl hc)
              rw [if_pos rfl] at hrec
              rw [heq, joinSep_cons_ne _ _ hne, hrec]
              by_cases hb : buffer = ""
              · rw [if_pos hb, if_pos hb,
                  joinSep_cons_ne _ _ (List.cons_ne_nil q rest')]
              · rw [if_neg hb, if_neg hb,
                  joinSep_cons_ne _ _ (List.cons_ne_nil p (q :: rest')),
                  joinSep_cons_ne _ _ (List.cons_ne_nil q rest')]
                simp [String.append_assoc]
            · have hqf : isHeading q = false := by
                rcases not_or.mp hcond with ⟨_, hq2⟩
                simpa using hq2
              have hb' : (if buffer = "" then p else buffer ++ "\n\n" ++ p) ≠ "" := by
                by_cases hb : buffer = ""
                · simpa [hb] using hpne
                · simp only [if_neg hb]
                  intro hcontra
                  have := congrArg (fun s => s.data.length) hcontra
                  simp [String.data_append] at this
              have heq : mergeParagraphs (p :: q :: rest') buffer
                  = mergeParagraphs (q :: rest')
                      (if buffer = "" then p else buffer ++ "\n\n" ++ p) := by
                simp [mergeParagraphs, hp, hs, hcond]
              have hrec := ih (q :: rest')
                (if buffer = "" then p else buffer ++ "\n\n" ++ p)
                (by simp; omega) hallrest
                (fun x l' hxl _ => by
                  have hx : x = q := by
                    have := congrArg List.head? hxl
                    simpa using this.symm
                  rw [hx]
                  exact hqf)
              rw [heq, hrec, if_neg hb']
              by_cases hb : buffer = ""
              · rw [if_pos hb, if_pos hb]
              · rw [if_neg hb, if_neg hb,
                  joinSep_cons_ne _ _ (List.cons_ne_nil q rest'),
                  joinSep_cons_ne _ _ (List.cons_ne_nil p (q :: rest')),
                  joinSep_cons_ne _ _ (List.cons_ne_nil q rest')]
                simp [String.append_assoc]
        · cases rest with
          | nil =>
            by_cases hb : buffer = "" <;>
              simp [mergeParagraphs, hp, hs, hb, joinSep]
          | cons q rest' =>
            simp only [List.length_cons] at hlen
            have hne := merge_ne_nil_aux n q rest' "" (by omega)
            have hrec := ih (q :: rest') "" (by simp; omega) hallrest
              (fun _ _ _ hc => absurd rfl hc)
            rw [if_pos rfl] at hrec
            by_cases hb : buffer = ""
            · have heq : mergeParagraphs (p :: q :: rest') buffer
                  = p :: mergeParagraphs (q :: rest') "" := by
                simp [mergeParagraphs, hp, hs, hb]
              rw [heq, joinSep_cons_ne _ _ hne, hrec, if_pos hb,
                joinSep_cons_ne _ _ (List.cons_ne_nil q rest')]
            · have heq : mergeParagraphs (p :: q :: rest') buffer
                  = buffer :: p :: mergeParagraphs (q :: rest') "" := by
                simp [mergeParagraphs, hp, hs, hb]
              rw [heq, if_neg hb,
                joinSep_cons_ne _ _
                  (List.cons_ne_nil p (mergeParagraphs (q :: rest') "")),
                joinSep_cons_ne _ _ hne, hrec,
                joinSep_cons_ne _ _ (List.cons_ne_nil p (q :: rest')),
                joinSep_cons_ne _ _ (List.cons_ne_nil q rest')]

/-- C5 counterexample: with the full markdown the PDF-to-markdown
extraction actually produces for the two pages `"a"` and `"b"`, the
document-level chunk's text is the pages joined with the `\n\n---\n\n`
page separator — not the concatenation of the page chunks' texts. -/
theorem chunks_C5_counterexample :
    ((createMultiLevelChunks (fekFullMarkdown ["a", "b"]) ["a", "b"]
        "n" "p" "F" "h" true).filter
          (fun c => c.chunkLevel == "document")).map (fun c => c.pageContent)
      = [fekFullMarkdown ["a", "b"]]
    ∧ fekFullMarkdown ["a", "b"] ≠ String.join ["a", "b"] := by
  constructor
  · rw [filter_chunks_document]
    rfl
  · decide

/-- C5 (amended): when the builder is fed by the PDF-to-markdown
extraction, the document chunk's text is the page texts joined with the
`\n\n---\n\n` page separator and normalised by `ensureConsistency` (not
their plain concatenation), and each page's text is recoverable from its
paragraph chunks only up to paragraph normalisation: the blank-line join
of the page's paragraph chunks equals the blank-line join of the page's
trimmed nonempty paragraphs — the merge pass loses no text relative to
that normal form. -/
theorem chunks_C5 (pages : List String) (fn fp ff H : String) :
    (((createMultiLevelChunks (fekFullMarkdown pages) pages fn fp ff H true).filter
        (fun c => c.chunkLevel == "document")).map (fun c => c.pageContent)
      = [ensureConsistency (joinSep "\n\n---\n\n" pages)])
    ∧ (∀ i page, pages.get? i = some page →
        joinSep "\n\n"
            (((createMultiLevelChunks (fekFullMarkdown pages) pages
                fn fp ff H true).filter
                  (fun c => c.chunkLevel == "paragraph"
                    && c.pageNumber == some (i + 1))).map
              (fun c => c.pageContent))
          = joinSep "\n\n" (rawParagraphs page)) := by
  constructor
  · rw [filter_chunks_document]
    rfl
  · intro i page hget
    rw [filter_chunks_paragraph _ pages fn fp ff H i page hget, mapIdx_map]
    rw [show (fun (k : Nat) (a : String) =>
        (mkParagraphChunk fn fp ff H i k a).pageContent)
        = (fun (_ : Nat) (a : String) => id a) from rfl, mapIdx_snd id, List.map_id]
    unfold mergedParagraphs
    have hjoin := merge_join_aux (rawParagraphs page).length (rawParagraphs page)
      "" le_rfl (rawParagraphs_ne_empty page) (fun _ _ _ hc => absurd rfl hc)
    rw [if_pos rfl] at hjoin
    exact hjoin

/-- Witness for C5 (amended) at a one-page input. -/
theorem chunks_C5_witness :
    joinSep "\n\n"
        (((createMultiLevelChunks (fekFullMarkdown ["x"]) ["x"]
            "n" "p" "F" "h" true).filter
              (fun c => c.chunkLevel == "paragraph" && c.pageNumber == some 1)).map
          (fun c => c.pageContent))
      = joinSep "\n\n" (rawParagraphs "x") :=
  (chunks_C5 ["x"] "n" "p" "F" "h").2 0 "x" rfl
